import Mathlib

set_option genSizeOfSpec false

/-!
# Verification of the fpll passthrough filesystem core

Shallow embedding of `src/rootfs/utils/fuse/fpll.cpp`: the identity hasher,
the inode table, the lookup/creation protocol, forgotten-object recovery,
directory streaming, the delete-notification side channel, and the
refcounting discipline, together with proofs about them.

Modelling conventions:
* Machine integers (`fuse_ino_t`, `dev_t`, `ino_t`, `uint64_t` refcounts,
  errno values) are modelled as `Nat`.  The only arithmetic performed on
  them in the source is increment, guarded decrement (the decrement is
  preceded by `assert(refcount >= n)`, so it never underflows) and
  equality/branching, so no wrap-around point is ever exercised.
* The `phmap` concurrent maps use `operator[]`, which yields a
  value-initialized default for an absent key (`nullptr` for
  `lo_inode *`, `""` for `std::string`, `0` for `fuse_ino_t`).  They are
  modelled as total functions returning exactly those defaults; an entry
  holding the default is indistinguishable from an absent entry
  everywhere in the source.
* All compound sequences in the source run under `lo->mutex`
  (`GlobalState`); the model is the sequential atomic semantics that the
  lock provides.
* File descriptors are modelled by an allocation counter `nextFd`, a list
  of currently-open descriptors, and per-descriptor records of the object
  `(st_dev, st_ino)` they denote and the absolute path they were resolved
  at.  `readlink("/proc/self/fd/N")` is modelled as reading back that
  path (the source additionally tolerates a failing readlink by skipping
  the store).
* Path resolution (`openat` with `O_PATH | O_NOFOLLOW`, either relative
  to a directory descriptor or absolute via `AT_FDCWD`) is modelled by a
  single backing-filesystem resolution function from absolute paths to
  objects; `openat(dirfd, name)` resolves `dirPath/name`.  `fstatat(fd,
  "", AT_EMPTY_PATH)` stats the object the descriptor denotes.
* The vendored third-party hash (`wyhash.h`, included by the source but
  not part of this repository's sources) is abstracted as an arbitrary
  function over the raw bytes, per the spec: "a fast, non-cryptographic
  64-bit hash of the raw (device, inode) byte pair".
-/

namespace Fpll

/-- POSIX errno values used by the source (asm-generic values). -/
def ENOENT : Nat := 2
def EBADF : Nat := 9
def ECHILD : Nat := 10
def ENOMEM : Nat := 12
def ENOSYS : Nat := 38

/-- The reserved kernel-facing handle of the mount root (`FUSE_ROOT_ID`). -/
def FUSE_ROOT_ID : Nat := 1

/-- Pointwise update of a total map, used to model `phmap` insertion and
(`erase` being an update back to the value-initialized default). -/
def upd {α β : Type} [DecidableEq α] (f : α → β) (k : α) (v : β) : α → β :=
  fun x => if x = k then v else f x

@[simp] theorem upd_same {α β : Type} [DecidableEq α] (f : α → β) (k : α) (v : β) :
    upd f k v k = v := by simp [upd]

theorem upd_other {α β : Type} [DecidableEq α] (f : α → β) (k : α) (v : β)
    {x : α} (h : x ≠ k) : upd f k v x = f x := by simp [upd, h]

/-- The fields of `struct stat` the server consumes: the identity pair
`(st_dev, st_ino)` plus the remaining attributes (mode, size, timestamps,
…) abstracted into one opaque component. -/
structure Stat where
  st_dev : Nat
  st_ino : Nat
  rest : Nat

/-- The backing filesystem, an external collaborator: absolute-path
resolution (`openat` with `O_PATH | O_NOFOLLOW`) yielding the object
`(st_dev, st_ino)` or an errno, and `fstatat(fd, "", AT_EMPTY_PATH |
AT_SYMLINK_NOFOLLOW)` yielding the non-identity attributes of an object
or an errno. -/
structure Fs where
  resolve : String → Except Nat (Nat × Nat)
  statOther : Nat × Nat → Except Nat Nat

/-- Mount-time environment: the abstracted vendored hash, the root's
`(st_dev, st_ino)` captured by `fstat` at mount time (`root_inode_key`),
the configured cache timeout (`lo->timeout`; a `double` in the source,
only ever copied into replies, never computed on), and the serialized
sizes produced by `fuse_add_direntry` / `fuse_add_direntry_plus` for a
given name (functions of the name length in libfuse). -/
structure Env where
  wyhash16 : List Nat → Nat
  root_dev : Nat
  root_ino : Nat
  timeout : Nat
  direntSize : String → Nat
  direntPlusSize : String → Nat

/-- The 8 little-endian bytes of a 64-bit value, as `memcpy` of a
`dev_t`/`ino_t` into the hash input buffer produces them. -/
def le8 (x : Nat) : List Nat :=
  [x % 256, x / 256 % 256, x / 256 ^ 2 % 256, x / 256 ^ 3 % 256,
   x / 256 ^ 4 % 256, x / 256 ^ 5 % 256, x / 256 ^ 6 % 256, x / 256 ^ 7 % 256]

/-- `hash_st_ino`: the identity hasher.  Returns the reserved root handle
for the root's own key, else the 64-bit hash of the 16 raw bytes formed
by concatenating `dev` and `ino` (`memcpy(buf, &dev, 8); memcpy(buf + 8,
&ino, 8); wyhash(buf, 16, 0, _wyp)`). -/
def hash_st_ino (env : Env) (dev ino : Nat) : Nat :=
  if dev = env.root_dev ∧ ino = env.root_ino then FUSE_ROOT_ID
  else env.wyhash16 (le8 dev ++ le8 ino)

/-- `struct lo_inode`: an inode-table entry owning a descriptor. -/
structure LoInode where
  fd : Nat
  ino : Nat
  dev : Nat
  refcount : Nat
  nodeid : Nat

/-- The server's global mutable state: `ino_to_ptr`, `forgotten_inodes`,
`root_dir_inodes`, `root_dir_names` (with their `phmap` default-value
semantics), plus the descriptor bookkeeping described in the header. -/
structure St where
  table : Nat → Option LoInode
  forgotten : Nat → String
  rootInodes : String → Nat
  rootNames : Nat → String
  nextFd : Nat
  openFds : List Nat
  fdObj : Nat → Nat × Nat
  fdPath : Nat → String

/-- The fields of `fuse_entry_param` populated by the server. -/
structure Entry where
  ino : Nat
  attr : Stat
  attr_timeout : Nat
  entry_timeout : Nat

/-- Result of `lo_do_lookup`: `crash` models a fired `assert`, `err` an
errno returned to the caller, `ok` a populated `fuse_entry_param`. -/
inductive LRes where
  | crash
  | err (e : Nat)
  | ok (e : Entry)

/-- `lo_inode`: resolves a kernel-facing handle to the record it denotes
via `ino_to_ptr` (a `nullptr` default read models an unknown handle).
The source short-circuits `ino == FUSE_ROOT_ID` to `&lo_data(req)->root`;
`main` installs that same record at key `FUSE_ROOT_ID` at mount time and
the modelled operation set never evicts it, so the two coincide. -/
def lo_inode (st : St) (ino : Nat) : Option LoInode :=
  st.table ino

/-- Result of the `lo_find` acquire-existing step. -/
inductive FindRes where
  | crash
  | found (i : LoInode)
  | missing

/-- `lo_find`: looks up `ino_to_ptr[hash_st_ino(st_dev, st_ino)]`; if a
record is found, asserts `refcount > 0` and increments the refcount in
place (the in-place pointer write is the table update at the key the
record was found under). -/
def lo_find (env : Env) (st : St) (a : Stat) : FindRes × St :=
  match st.table (hash_st_ino env a.st_dev a.st_ino) with
  | some ret =>
    if 0 < ret.refcount then
      let ret' : LoInode := { ret with refcount := ret.refcount + 1 }
      (.found ret',
       { st with table := upd st.table (hash_st_ino env a.st_dev a.st_ino) (some ret') })
    else (.crash, st)
  | none => (.missing, st)

/-- The open phase of `lo_do_lookup`: reads `forgotten_inodes[parent]`;
a non-empty entry makes this a forgotten-parent lookup: for
`name == "."` the forgotten path itself is reopened and the call is
marked `recovered`; for any other name `forgotten_path/name` is reopened
(and `recovered` stays false).  Otherwise `name` is opened relative to
the parent's descriptor (`openat(lo_fd(req, parent), name, O_PATH |
O_NOFOLLOW)`; a parent that is not in the table yields fd `-1` and the
open fails with `EBADF`).  Returns the opened object, the absolute path
it was resolved at, and the `recovered` flag. -/
def lookup_open (fs : Fs) (st : St) (parent : Nat) (name : String) :
    Except Nat ((Nat × Nat) × String × Bool) :=
  if st.forgotten parent ≠ "" then
    if name = "." then
      (fs.resolve (st.forgotten parent)).map (fun o => (o, st.forgotten parent, true))
    else
      (fs.resolve (st.forgotten parent ++ "/" ++ name)).map
        (fun o => (o, st.forgotten parent ++ "/" ++ name, false))
  else
    match lo_inode st parent with
    | none => .error EBADF
    | some pinode =>
      (fs.resolve (st.fdPath pinode.fd ++ "/" ++ name)).map
        (fun o => (o, st.fdPath pinode.fd ++ "/" ++ name, false))

/-- Allocation of the descriptor a successful open returns, recording the
object it denotes and the path it was resolved at. -/
def lookup_alloc_fd (st : St) (obj : Nat × Nat) (path : String) : Nat × St :=
  (st.nextFd,
   { st with nextFd := st.nextFd + 1, openFds := st.nextFd :: st.openFds,
             fdObj := upd st.fdObj st.nextFd obj, fdPath := upd st.fdPath st.nextFd path })

/-- Steps 3–5 of `lo_do_lookup` after a successful stat: acquire an
existing record through `lo_find` (closing the duplicate descriptor), or
allocate and register a fresh record with refcount 1 under
`recovered ? parent : hash_st_ino(dev, ino)`, deleting the consumed
forgotten entry on recovery and refreshing `root_dir_inodes` /
`root_dir_names` for a direct child of the root. -/
def lookup_materialize (env : Env) (st : St) (parent : Nat) (name : String)
    (newfd : Nat) (attr : Stat) (recovered : Bool) : LRes × St :=
  match lo_find env st attr with
  | (.crash, st2) => (.crash, st2)
  | (.found inode, st2) =>
    (.ok ⟨inode.nodeid, attr, env.timeout, env.timeout⟩,
     { st2 with openFds := st2.openFds.erase newfd })
  | (.missing, st2) =>
    let nodeid := if recovered then parent else hash_st_ino env attr.st_dev attr.st_ino
    let inode : LoInode := ⟨newfd, attr.st_ino, attr.st_dev, 1, nodeid⟩
    let st3 : St := { st2 with
      table := upd st2.table nodeid (some inode),
      forgotten := if recovered then upd st2.forgotten parent "" else st2.forgotten,
      rootInodes :=
        if parent = FUSE_ROOT_ID then upd st2.rootInodes name nodeid else st2.rootInodes,
      rootNames :=
        if parent = FUSE_ROOT_ID then upd st2.rootNames nodeid name else st2.rootNames }
    (.ok ⟨nodeid, attr, env.timeout, env.timeout⟩, st3)

/-- `lo_do_lookup`: the shared lookup/creation allocation path.  Opens
`(parent, name)` (see `lookup_open`), allocates the returned descriptor,
stats it (`fstatat(newfd, "", AT_EMPTY_PATH | AT_SYMLINK_NOFOLLOW)`; a
failed stat closes the duplicate descriptor before returning the errno),
then acquires or registers the record (see `lookup_materialize`) and
replies with the entry's handle, attributes and the configured cache
timeouts.  (The source maps a failed `calloc` to `ENOMEM`; allocation is
not modelled as failing.) -/
def lo_do_lookup (env : Env) (fs : Fs) (st : St) (parent : Nat) (name : String) :
    LRes × St :=
  match lookup_open fs st parent name with
  | .error e => (.err e, st)
  | .ok (obj, path, recovered) =>
    let a := lookup_alloc_fd st obj path
    match fs.statOther obj with
    | .error e => (.err e, { a.2 with openFds := a.2.openFds.erase a.1 })
    | .ok onat => lookup_materialize env a.2 parent name a.1 ⟨obj.1, obj.2, onat⟩ recovered

/-- Result of `unref_inode`. -/
inductive URes where
  | crash
  | stillAlive
  | destroyed
  | noInode

/-- `unref_inode`: asserts `refcount >= n` and decrements by `n`.  On
reaching zero it reads the record's current absolute path back from its
own descriptor (`readlink("/proc/self/fd/<fd>")`, modelled as the
tracked descriptor path), stores it as the forgotten entry for the
record's handle, removes any `root_dir_inodes` / `root_dir_names` entry,
erases the handle from `ino_to_ptr`, closes the descriptor and frees the
record. -/
def unref_inode (st : St) (inode : Option LoInode) (n : Nat) : URes × St :=
  match inode with
  | none => (.noInode, st)
  | some inode =>
    if n ≤ inode.refcount then
      let rc := inode.refcount - n
      if rc = 0 then
        let path := st.fdPath inode.fd
        let root_dir_name := st.rootNames inode.nodeid
        let st1 : St := { st with
          forgotten := upd st.forgotten inode.nodeid path,
          rootInodes :=
            if root_dir_name ≠ "" then upd st.rootInodes root_dir_name 0
            else st.rootInodes,
          rootNames :=
            if root_dir_name ≠ "" then upd st.rootNames inode.nodeid ""
            else st.rootNames,
          table := upd st.table inode.nodeid none }
        (.destroyed, { st1 with openFds := st1.openFds.erase inode.fd })
      else
        (.stillAlive,
         { st with table := upd st.table inode.nodeid (some { inode with refcount := rc }) })
    else (.crash, st)

/-- Result of `lo_forget_one`. -/
inductive FRes where
  | crash
  | badf
  | done

/-- `lo_forget_one`: resolves the handle; an unknown handle replies
`EBADF`, otherwise the forget count is applied through `unref_inode`. -/
def lo_forget_one (st : St) (ino : Nat) (nlookup : Nat) : FRes × St :=
  match lo_inode st ino with
  | none => (.badf, st)
  | some inode =>
    match unref_inode st (some inode) nlookup with
    | (.crash, st') => (.crash, st')
    | (_, st') => (.done, st')

/-- A handler reply to the kernel: an errno (`fuse_reply_err`), an entry
(`fuse_reply_entry`), a data buffer of a given byte count
(`fuse_reply_buf`), an xattr size (`fuse_reply_xattr`), attributes with a
timeout (`fuse_reply_attr`), or a fired assert. -/
inductive Reply where
  | err (e : Nat)
  | entry (e : Entry)
  | buf (used : Nat)
  | xattr (n : Nat)
  | attr (a : Stat) (timeout : Nat)
  | crash

/-- `lo_mknod_symlink` (shared body of `mknod`, `mkdir` and `symlink`):
resolves the parent (unknown parent replies `EBADF` and performs
no syscall), performs the underlying creation syscall
(`mknod_wrapper(dir->fd, name, link, mode, rdev)`, an external helper
whose outcome — an errno, or success leaving the extended backing
filesystem `fs2` — is the `createRes` argument), then registers the new
object through `lo_do_lookup` and replies with its entry. -/
def lo_mknod_symlink (env : Env) (st : St) (createRes : Except Nat Fs)
    (parent : Nat) (name : String) : Reply × St :=
  match lo_inode st parent with
  | none => (.err EBADF, st)
  | some _dir =>
    match createRes with
    | .error e => (.err e, st)
    | .ok fs2 =>
      match lo_do_lookup env fs2 st parent name with
      | (.ok e, st') => (.entry e, st')
      | (.err e, st') => (.err e, st')
      | (.crash, st') => (.crash, st')

/-- `lo_link`: resolves the target handle (unknown handle replies `EBADF`
and performs no syscall), performs
`linkat(AT_FDCWD, "/proc/self/fd/<fd>", lo_fd(req, parent), name,
AT_SYMLINK_FOLLOW)` — an external syscall whose outcome (an errno,
covering also `lo_fd(parent) == -1`, or success leaving the extended
backing filesystem) is the `linkRes` argument — then restats the held
descriptor and increments the record's refcount in place, replying with
the record's existing handle. -/
def lo_link (env : Env) (st : St) (linkRes : Except Nat Fs)
    (ino : Nat) (_parent : Nat) (_name : String) : Reply × St :=
  match lo_inode st ino with
  | none => (.err EBADF, st)
  | some inode =>
    match linkRes with
    | .error e => (.err e, st)
    | .ok fs2 =>
      match fs2.statOther (st.fdObj inode.fd) with
      | .error e => (.err e, st)
      | .ok onat =>
        let attr : Stat := ⟨(st.fdObj inode.fd).1, (st.fdObj inode.fd).2, onat⟩
        let inode' : LoInode := { inode with refcount := inode.refcount + 1 }
        (.entry ⟨inode.nodeid, attr, env.timeout, env.timeout⟩,
         { st with table := upd st.table ino (some inode') })

/-! ## Attribute and extended-attribute handlers

Each handler resolves its handle through `lo_inode` first and replies
`EBADF` without performing any syscall when the handle is unknown.  The
underlying syscalls are external collaborators; their outcomes are
arguments, so a result that is independent of those arguments was
produced without consulting them. -/

/-- `FUSE_SET_ATTR_*` bits consumed by `lo_setattr`. -/
def FUSE_SET_ATTR_MODE : Nat := 1
def FUSE_SET_ATTR_UID : Nat := 2
def FUSE_SET_ATTR_GID : Nat := 4
def FUSE_SET_ATTR_SIZE : Nat := 8
def FUSE_SET_ATTR_ATIME : Nat := 16
def FUSE_SET_ATTR_MTIME : Nat := 32

/-- Outcomes of the syscalls `lo_setattr` may perform: chmod (via the
procfs link or `fchmod`), `fchownat(AT_EMPTY_PATH)`, truncate,
`futimens`/`utimensat`, and the final `lo_getattr` restat. -/
structure SetattrSys where
  chmodRes : Except Nat Unit
  chownRes : Except Nat Unit
  truncRes : Except Nat Unit
  utimensRes : Except Nat Unit
  getattrRes : Except Nat Stat

/-- `lo_setattr`: unknown handle replies `EBADF`; otherwise the selected
attribute changes run in source order, the first failing syscall's errno
is replied, and on success the handler tail-calls `lo_getattr`. -/
def lo_setattr (env : Env) (st : St) (sys : SetattrSys) (ino valid : Nat) :
    Reply × St :=
  match lo_inode st ino with
  | none => (.err EBADF, st)
  | some _inode =>
    let step : Nat → Except Nat Unit → Except Nat Unit := fun bit r =>
      if Nat.land valid bit ≠ 0 then r else .ok ()
    match step FUSE_SET_ATTR_MODE sys.chmodRes with
    | .error e => (.err e, st)
    | .ok _ =>
      match step (FUSE_SET_ATTR_UID + FUSE_SET_ATTR_GID) sys.chownRes with
      | .error e => (.err e, st)
      | .ok _ =>
        match step FUSE_SET_ATTR_SIZE sys.truncRes with
        | .error e => (.err e, st)
        | .ok _ =>
          match step (FUSE_SET_ATTR_ATIME + FUSE_SET_ATTR_MTIME) sys.utimensRes with
          | .error e => (.err e, st)
          | .ok _ =>
            match sys.getattrRes with
            | .error e => (.err e, st)
            | .ok a => (.attr a env.timeout, st)

/-- `lo_getxattr`: unknown handle replies `EBADF`; with xattr support
disabled replies `ENOSYS`; otherwise forwards `getxattr` on the procfs
link of the held descriptor (outcome `sysRes`: errno or returned
length), replying a data buffer for `size != 0` (a zero-length result
replies `fuse_reply_err(req, 0)`) and the attribute size for
`size == 0`. -/
def lo_getxattr (st : St) (xattrEnabled : Bool) (sysRes : Except Nat Nat)
    (ino : Nat) (_name : String) (size : Nat) : Reply × St :=
  match lo_inode st ino with
  | none => (.err EBADF, st)
  | some _inode =>
    if !xattrEnabled then (.err ENOSYS, st)
    else if size ≠ 0 then
      match sysRes with
      | .error e => (.err e, st)
      | .ok ret => if ret = 0 then (.err 0, st) else (.buf ret, st)
    else
      match sysRes with
      | .error e => (.err e, st)
      | .ok ret => (.xattr ret, st)

/-- `lo_listxattr`: same shape as `lo_getxattr` over `listxattr`. -/
def lo_listxattr (st : St) (xattrEnabled : Bool) (sysRes : Except Nat Nat)
    (ino : Nat) (size : Nat) : Reply × St :=
  match lo_inode st ino with
  | none => (.err EBADF, st)
  | some _inode =>
    if !xattrEnabled then (.err ENOSYS, st)
    else if size ≠ 0 then
      match sysRes with
      | .error e => (.err e, st)
      | .ok ret => if ret = 0 then (.err 0, st) else (.buf ret, st)
    else
      match sysRes with
      | .error e => (.err e, st)
      | .ok ret => (.xattr ret, st)

/-- `lo_setxattr`: unknown handle replies `EBADF`; with xattr support
disabled replies `ENOSYS`; otherwise forwards `setxattr` and replies its
errno, or 0 on success. -/
def lo_setxattr (st : St) (xattrEnabled : Bool) (sysRes : Except Nat Unit)
    (ino : Nat) (_name _value : String) : Reply × St :=
  match lo_inode st ino with
  | none => (.err EBADF, st)
  | some _inode =>
    if !xattrEnabled then (.err ENOSYS, st)
    else
      match sysRes with
      | .error e => (.err e, st)
      | .ok _ => (.err 0, st)

/-- `lo_removexattr`: same shape as `lo_setxattr` over `removexattr`. -/
def lo_removexattr (st : St) (xattrEnabled : Bool) (sysRes : Except Nat Unit)
    (ino : Nat) (_name : String) : Reply × St :=
  match lo_inode st ino with
  | none => (.err EBADF, st)
  | some _inode =>
    if !xattrEnabled then (.err ENOSYS, st)
    else
      match sysRes with
      | .error e => (.err e, st)
      | .ok _ => (.err 0, st)

/-! ## Directory streaming

The underlying `DIR` stream of one open directory is a list of directory
entries plus an optional errno that `readdir` reports (as `NULL` with
`errno` set) once the listed entries are exhausted; a clean end of
stream is `NULL` with `errno == 0`.  Stream offsets (`d_off` cookies,
`seekdir` targets) are positions in that list: the `d_off` of the entry
at index `k` is `k + 1`, and `seekdir(c)` positions the stream so the
next `readdir` yields index `c`. -/

/-- One `struct dirent`: the fields the server consumes. -/
structure Dirent where
  d_name : String
  d_ino : Nat
  d_type : Nat

/-- The underlying directory stream contents. -/
structure DirStream where
  entries : List Dirent
  tailErr : Option Nat

/-- `struct lo_dirp`: the per-open-directory cursor — the underlying
stream position, the cached current entry (whose `d_off` equals `pos`),
and the last reply offset `d->offset`. -/
structure LoDirp where
  pos : Nat
  entry : Option Dirent
  offset : Nat

/-- `is_dot_or_dotdot` (the source tests the name's bytes). -/
def is_dot_or_dotdot (name : String) : Bool :=
  name = "." || name = ".."

/-- Output of one `lo_do_readdir` call: the reply, the bytes serialized,
the resulting global state and directory cursor, plus ghost records of
the per-entry lookup grants issued (the `entry_ino` values), the
`lo_forget_one` calls issued, the error encountered during the call (if
any), and the `entry_ino` of an entry dropped for not fitting (if
any). -/
structure RdOut where
  reply : Reply
  used : Nat
  st : St
  d : LoDirp
  grants : List Nat
  forgets : List (Nat × Nat)
  errG : Option Nat
  truncGrant : Option Nat

/-- The tail of `lo_do_readdir`: an error is replied only when nothing
has been serialized yet (`rem == size`); otherwise the collected page is
returned (`fuse_reply_buf(req, buf, size - rem)`). -/
def rd_finish (size rem : Nat) (st : St) (d : LoDirp) (grants : List Nat)
    (forgets : List (Nat × Nat)) (errG : Option Nat) (truncGrant : Option Nat) :
    RdOut :=
  { reply :=
      match errG with
      | some e => if rem = size then .err e else .buf (size - rem)
      | none => .buf (size - rem)
    used := size - rem, st := st, d := d, grants := grants, forgets := forgets,
    errG := errG, truncGrant := truncGrant }

/-- An assert fired inside a nested call: the process aborts. -/
def rd_crash (size rem : Nat) (st : St) (d : LoDirp) (grants : List Nat)
    (forgets : List (Nat × Nat)) : RdOut :=
  { reply := .crash, used := size - rem, st := st, d := d, grants := grants,
    forgets := forgets, errG := none, truncGrant := none }

/-- The `while (1)` body of `lo_do_readdir`.  A missing cached entry is
refilled from the stream (end of stream breaks out; a stream error goes
to the error exit); the cached entry is then serialized —  in plus mode a
non-"."/".." entry is first resolved through `lo_do_lookup` (a failure
goes to the error exit with the entry still cached) — and an entry that
does not fit rolls back its lookup grant with a single
`lo_forget_one(entry_ino, 1)` (when `entry_ino != 0`) and breaks out with
the entry still cached and `d->offset` not advanced. -/
def rd_loop (env : Env) (fs : Fs) (tailErr : Option Nat) (ino : Nat) (plus : Bool)
    (size : Nat) :
    Option Dirent → List Dirent → Nat → Nat → Nat → St →
    List Nat → List (Nat × Nat) → RdOut
  | none, pending, pos, dOffset, rem, st, grants, forgets =>
    match pending with
    | [] =>
      match tailErr with
      | some e => rd_finish size rem st ⟨pos, none, dOffset⟩ grants forgets (some e) none
      | none => rd_finish size rem st ⟨pos, none, dOffset⟩ grants forgets none none
    | ent :: rest =>
      rd_loop env fs tailErr ino plus size (some ent) rest (pos + 1) dOffset rem st
        grants forgets
  | some ent, pending, pos, dOffset, rem, st, grants, forgets =>
    let nextoff := pos
    let name := ent.d_name
    if plus then
      if is_dot_or_dotdot name then
        let entsize := env.direntPlusSize name
        if entsize > rem then
          rd_finish size rem st ⟨pos, some ent, dOffset⟩ grants forgets none none
        else
          rd_loop env fs tailErr ino plus size none pending pos nextoff (rem - entsize)
            st grants forgets
      else
        match lo_do_lookup env fs st ino name with
        | (.crash, st') => rd_crash size rem st' ⟨pos, some ent, dOffset⟩ grants forgets
        | (.err e, st') =>
          rd_finish size rem st' ⟨pos, some ent, dOffset⟩ grants forgets (some e) none
        | (.ok e, st') =>
          let entry_ino := e.ino
          let grants' := grants ++ [entry_ino]
          let entsize := env.direntPlusSize name
          if entsize > rem then
            if entry_ino ≠ 0 then
              match lo_forget_one st' entry_ino 1 with
              | (.crash, st2) =>
                rd_crash size rem st2 ⟨pos, some ent, dOffset⟩ grants' forgets
              | (_, st2) =>
                rd_finish size rem st2 ⟨pos, some ent, dOffset⟩ grants'
                  (forgets ++ [(entry_ino, 1)]) none (some entry_ino)
            else
              rd_finish size rem st' ⟨pos, some ent, dOffset⟩ grants' forgets none
                (some entry_ino)
          else
            rd_loop env fs tailErr ino plus size none pending pos nextoff (rem - entsize)
              st' grants' forgets
    else
      let entsize := env.direntSize name
      if entsize > rem then
        rd_finish size rem st ⟨pos, some ent, dOffset⟩ grants forgets none none
      else
        rd_loop env fs tailErr ino plus size none pending pos nextoff (rem - entsize)
          st grants forgets
termination_by cached pending _ _ _ _ _ _ =>
  2 * pending.length + (if cached.isSome then 1 else 0)

/-- `lo_do_readdir`: a requested offset differing from the cursor's
repositions the stream (`seekdir`) and clears the cached entry, then the
serialization loop runs over the remaining stream.  (The source's output
buffer `calloc` is not modelled as failing.) -/
def lo_do_readdir (env : Env) (fs : Fs) (stream : DirStream) (st : St) (d : LoDirp)
    (ino : Nat) (size : Nat) (offset : Nat) (plus : Bool) : RdOut :=
  let d' := if offset ≠ d.offset then (⟨offset, none, offset⟩ : LoDirp) else d
  rd_loop env fs stream.tailErr ino plus size d'.entry (stream.entries.drop d'.pos)
    d'.pos d'.offset size st [] []

/-! ## Delete-notification side channel -/

/-- `rpc_handle_delete`: translates a root-child name through
`root_dir_inodes` (the `phmap` default `0` denotes an unregistered
name), returning `-ECHILD` without any kernel-facing call for an
unregistered name, and otherwise invoking
`fuse_lowlevel_notify_delete(se, FUSE_ROOT_ID, ino, name, len)` — an
external call whose result is `notify ino name` — propagating its
failure code or returning 0.  The second component records the
invalidation calls issued. -/
def rpc_handle_delete (st : St) (notify : Nat → String → Int) (path : String) :
    Int × List (Nat × String) :=
  let ino := st.rootInodes path
  if ino = 0 then (-(ECHILD : Int), [])
  else
    let ret := notify ino path
    if ret ≠ 0 then (ret, [(ino, path)])
    else (0, [(ino, path)])

/-- One request/response round of `serve_rpc_conn`: after the
length-prefixed name has been read, `rpc_handle_delete` runs and its
result code is written back to the peer verbatim.  Returns the value
written back and the invalidation calls issued. -/
def serve_rpc_one (st : St) (notify : Nat → String → Int) (path : String) :
    Int × List (Nat × String) :=
  rpc_handle_delete st notify path

/-! ## Reachable states

The kernel-facing dispatch loop delivers lookups, creations, hard links
and forgets in some order; `Reach` is the set of states these can
produce from the mount-time state.  Creations extend the backing
filesystem monotonically (the modelled operation set — lookup, create,
link, forget — never unlinks or renames, so established resolutions
persist).  Forgets are delivered by the kernel only for live handles
other than the root (the root's lookup count is never dropped by the
kernel) and never exceed, in total, the references granted for the
record; the per-handle grant/forget totals are tracked alongside the
state as the ghost accounting. -/

/-- The root `lo_inode` singleton as `main` sets it up: descriptor 0 is
the `open(lo.source, O_PATH)` descriptor, the identity is the mount-time
`fstat` result, and the initial refcount is 2. -/
def initRoot (env : Env) : LoInode :=
  ⟨0, env.root_ino, env.root_dev, 2, FUSE_ROOT_ID⟩

/-- Mount-time state: `ino_to_ptr[hash_st_ino(root)] = &lo.root` (the
hash of the root key is `FUSE_ROOT_ID`), all bookkeeping maps empty and
only the root descriptor open. -/
def initialSt (env : Env) (sourcePath : String) : St :=
  { table := fun h => if h = FUSE_ROOT_ID then some (initRoot env) else none
    forgotten := fun _ => ""
    rootInodes := fun _ => 0
    rootNames := fun _ => ""
    nextFd := 1
    openFds := [0]
    fdObj := fun _ => (env.root_dev, env.root_ino)
    fdPath := fun _ => sourcePath }

/-- Ghost accounting: per-handle totals of references granted (one per
successful lookup/create/link reply naming the handle, starting over
when a fresh record is registered) and of forget counts delivered. -/
structure Ghost where
  G : Nat → Nat
  F : Nat → Nat

/-- At mount time the root starts with two granted references and no
forgets. -/
def initGhost : Ghost :=
  ⟨fun h => if h = FUSE_ROOT_ID then 2 else 0, fun _ => 0⟩

/-- Ghost effect of a reply granting one reference to handle `h`: a
fresh registration (no record at `h` before the call) restarts the
totals at one grant, a reuse adds one grant. -/
def ghostGrant (st : St) (g : Ghost) (h : Nat) : Ghost :=
  match st.table h with
  | none => ⟨upd g.G h 1, upd g.F h 0⟩
  | some _ => ⟨upd g.G h (g.G h + 1), g.F⟩

/-- Ghost effect of a `lo_do_lookup` outcome (`st` is the pre-call
state). -/
def ghostAfterLookup (st : St) (g : Ghost) : LRes → Ghost
  | .ok e => ghostGrant st g e.ino
  | _ => g

/-- Ghost effect of a `lo_link` outcome (`st` is the pre-call state). -/
def ghostAfterLink (st : St) (g : Ghost) : Reply → Ghost
  | .entry e => ghostGrant st g e.ino
  | _ => g

/-- Monotone extension of the backing filesystem: every established
resolution persists (creations only add entries under the modelled
operation set). -/
def FsLe (fs fs' : Fs) : Prop :=
  ∀ p o, fs.resolve p = .ok o → fs'.resolve p = .ok o

/-- States reachable from the mount-time state by any sequence of
lookup, create (a monotone filesystem extension followed by the shared
allocation path, as in `lo_mknod_symlink` / `lo_create`; a plain lookup
is the `fs' = fs` case), hard-link and forget operations. -/
inductive Reach (env : Env) (sourcePath : String) : Fs → St → Ghost → Prop
  | init (fs : Fs)
      (hres : fs.resolve sourcePath = .ok (env.root_dev, env.root_ino)) :
      Reach env sourcePath fs (initialSt env sourcePath) initGhost
  | lookup {fs st g} (fs' : Fs) (parent : Nat) (name : String)
      (hr : Reach env sourcePath fs st g) (hle : FsLe fs fs') :
      Reach env sourcePath fs' (lo_do_lookup env fs' st parent name).2
        (ghostAfterLookup st g (lo_do_lookup env fs' st parent name).1)
  | link {fs st g} (fs' : Fs) (ino parent : Nat) (name : String)
      (hr : Reach env sourcePath fs st g) (hle : FsLe fs fs') :
      Reach env sourcePath fs' (lo_link env st (.ok fs') ino parent name).2
        (ghostAfterLink st g (lo_link env st (.ok fs') ino parent name).1)
  | forget {fs st g} (h n : Nat)
      (hr : Reach env sourcePath fs st g) (hroot : h ≠ FUSE_ROOT_ID)
      (hlive : (st.table h).isSome) (hbal : g.F h + n ≤ g.G h) :
      Reach env sourcePath fs (lo_forget_one st h n).2 ⟨g.G, upd g.F h (g.F h + n)⟩

/-- The inode-table invariant: every record is registered under its own
`nodeid`, which is the identity hash of its `(dev, ino)` pair; it is
live (positive refcount); its descriptor still resolves to its object
and was allocated below the fd counter; the ghost totals balance its
refcount; and every pending forgotten path still resolves to an object
hashing back to the handle it is filed under. -/
def Inv (env : Env) (fs : Fs) (st : St) (g : Ghost) : Prop :=
  (∀ h r, st.table h = some r →
      r.nodeid = h ∧ hash_st_ino env r.dev r.ino = h ∧ 0 < r.refcount ∧
      fs.resolve (st.fdPath r.fd) = .ok (r.dev, r.ino) ∧ r.fd < st.nextFd ∧
      g.G h = r.refcount + g.F h) ∧
  (∀ h, st.forgotten h ≠ "" →
      ∃ d i, fs.resolve (st.forgotten h) = .ok (d, i) ∧ hash_st_ino env d i = h)

/-! ## Preservation of the invariant -/

theorem inv_init (env : Env) (sourcePath : String) (fs : Fs)
    (hres : fs.resolve sourcePath = .ok (env.root_dev, env.root_ino)) :
    Inv env fs (initialSt env sourcePath) initGhost := by
  constructor
  · intro h r hr
    by_cases hh : h = FUSE_ROOT_ID
    · subst hh
      have hr' : initRoot env = r := by simpa [initialSt] using hr
      subst hr'
      refine ⟨rfl, ?_, by norm_num [initRoot], ?_, by norm_num [initialSt, initRoot], ?_⟩
      · simp [hash_st_ino, initRoot]
      · simpa [initialSt, initRoot] using hres
      · simp [initGhost, initRoot]
    · simp [initialSt, if_neg hh] at hr
  · intro h hf
    simp [initialSt] at hf

/-- A successful open resolved the returned path to the returned object;
a recovery open reopened the pending forgotten path itself. -/
theorem lookup_open_ok {fs : Fs} {st : St} {parent : Nat} {name : String}
    {obj : Nat × Nat} {path : String} {recovered : Bool}
    (h : lookup_open fs st parent name = .ok (obj, path, recovered)) :
    fs.resolve path = .ok obj ∧
      (recovered = true → path = st.forgotten parent ∧ st.forgotten parent ≠ "") ∧
      (recovered = true → name = ".") := by
  unfold lookup_open at h
  split at h
  · rename_i hf
    split at h
    · rename_i hn
      cases hres : fs.resolve (st.forgotten parent) with
      | error e => rw [hres] at h; simp [Except.map] at h
      | ok o =>
        rw [hres] at h
        simp only [Except.map, Except.ok.injEq, Prod.mk.injEq] at h
        obtain ⟨h1, h2, _⟩ := h
        subst h1; subst h2
        exact ⟨hres, fun _ => ⟨rfl, hf⟩, fun _ => hn⟩
    · cases hres : fs.resolve (st.forgotten parent ++ "/" ++ name) with
      | error e => rw [hres] at h; simp [Except.map] at h
      | ok o =>
        rw [hres] at h
        simp only [Except.map, Except.ok.injEq, Prod.mk.injEq] at h
        obtain ⟨h1, h2, h3⟩ := h
        subst h1; subst h2
        exact ⟨hres, fun hc => absurd h3.symm (by simp [hc]),
          fun hc => absurd h3.symm (by simp [hc])⟩
  · split at h
    · simp at h
    · rename_i pinode hp
      cases hres : fs.resolve (st.fdPath pinode.fd ++ "/" ++ name) with
      | error e => rw [hres] at h; simp [Except.map] at h
      | ok o =>
        rw [hres] at h
        simp only [Except.map, Except.ok.injEq, Prod.mk.injEq] at h
        obtain ⟨h1, h2, h3⟩ := h
        subst h1; subst h2
        exact ⟨hres, fun hc => absurd h3.symm (by simp [hc]),
          fun hc => absurd h3.symm (by simp [hc])⟩

/-- A recovery open resolves to an object whose identity hash is the
recovered parent handle itself (that is what the pending forgotten entry
records). -/
theorem lookup_open_recovered_hash {env : Env} {fs : Fs} {st : St} {g : Ghost}
    {parent : Nat} {name : String} {obj : Nat × Nat} {path : String}
    (hinv : Inv env fs st g)
    (h : lookup_open fs st parent name = .ok (obj, path, true)) :
    hash_st_ino env obj.1 obj.2 = parent := by
  obtain ⟨hres, hrec, -⟩ := lookup_open_ok h
  obtain ⟨hpath, hne⟩ := hrec rfl
  obtain ⟨d, i, hres2, hh⟩ := hinv.2 parent hne
  rw [hpath] at hres
  rw [hres] at hres2
  obtain ⟨h1, h2⟩ := Prod.mk.injEq .. ▸ (Except.ok.injEq .. ▸ hres2 : obj = (d, i))
  rw [h1, h2]
  exact hh

/-- The invariant is stable under monotone filesystem extension. -/
theorem inv_fsle {env : Env} {fs fs' : Fs} {st : St} {g : Ghost}
    (hinv : Inv env fs st g) (hle : FsLe fs fs') : Inv env fs' st g := by
  obtain ⟨h1, h2⟩ := hinv
  refine ⟨fun h r hr => ?_, fun h hf => ?_⟩
  · obtain ⟨a, b, c, d, e, f⟩ := h1 h r hr
    exact ⟨a, b, c, hle _ _ d, e, f⟩
  · obtain ⟨d, i, hres, hh⟩ := h2 h hf
    exact ⟨d, i, hle _ _ hres, hh⟩

/-- Descriptor allocation affects no invariant clause (fresh descriptors
are above every live record's descriptor). -/
theorem inv_alloc {env : Env} {fs : Fs} {st : St} {g : Ghost} {obj : Nat × Nat}
    {path : String} (hinv : Inv env fs st g) :
    Inv env fs (lookup_alloc_fd st obj path).2 g := by
  obtain ⟨h1, h2⟩ := hinv
  constructor
  · intro h r hr
    simp only [lookup_alloc_fd] at hr ⊢
    obtain ⟨a, b, c, d, e, f⟩ := h1 h r hr
    refine ⟨a, b, c, ?_, Nat.lt_succ_of_lt e, f⟩
    rw [upd_other _ _ _ (Nat.ne_of_lt e)]
    exact d
  · intro h hf
    simp only [lookup_alloc_fd] at hf ⊢
    exact h2 h hf

/-- The acquire-or-register step preserves the invariant, with the ghost
totals restarted for a fresh registration and bumped for a reuse. -/
theorem inv_materialize {env : Env} {fs : Fs} {st : St} {g : Ghost} {parent : Nat}
    {name : String} {newfd : Nat} {attr : Stat} {recovered : Bool}
    (hinv : Inv env fs st g)
    (hpath : fs.resolve (st.fdPath newfd) = .ok (attr.st_dev, attr.st_ino))
    (hfd : newfd < st.nextFd)
    (hrec : recovered = true → hash_st_ino env attr.st_dev attr.st_ino = parent) :
    Inv env fs (lookup_materialize env st parent name newfd attr recovered).2
      (ghostAfterLookup st g
        (lookup_materialize env st parent name newfd attr recovered).1) := by
  obtain ⟨h1, h2⟩ := hinv
  cases htab : st.table (hash_st_ino env attr.st_dev attr.st_ino) with
  | some ret =>
    obtain ⟨hnid, hhash, hpos, hres, hfdlt, hbal⟩ := h1 _ ret htab
    simp only [lookup_materialize, lo_find, htab, if_pos hpos, ghostAfterLookup,
      ghostGrant, hnid, htab]
    constructor
    · intro h r hr
      dsimp only at hr ⊢
      by_cases hk : h = hash_st_ino env attr.st_dev attr.st_ino
      · subst hk
        rw [upd_same] at hr
        injection hr with hr
        subst hr
        refine ⟨rfl, hhash, Nat.succ_pos _, hres, hfdlt, ?_⟩
        rw [upd_same]
        dsimp only
        omega
      · rw [upd_other _ _ _ hk] at hr
        obtain ⟨a, b, c, d, e, f⟩ := h1 h r hr
        refine ⟨a, b, c, d, e, ?_⟩
        rw [upd_other _ _ _ hk]
        exact f
    · exact h2
  | none =>
    cases recovered with
    | false =>
      simp only [lookup_materialize, lo_find, htab, ghostAfterLookup, ghostGrant,
        Bool.false_eq_true, if_false, htab]
      constructor
      · intro h r hr
        dsimp only at hr ⊢
        by_cases hk : h = hash_st_ino env attr.st_dev attr.st_ino
        · subst hk
          rw [upd_same] at hr
          injection hr with hr
          subst hr
          refine ⟨rfl, rfl, Nat.one_pos, hpath, hfd, ?_⟩
          rw [upd_same, upd_same]
        · rw [upd_other _ _ _ hk] at hr
          obtain ⟨a, b, c, d, e, f⟩ := h1 h r hr
          refine ⟨a, b, c, d, e, ?_⟩
          rw [upd_other _ _ _ hk, upd_other _ _ _ hk]
          exact f
      · exact h2
    | true =>
      have hp := hrec rfl
      rw [hp] at htab
      simp only [lookup_materialize, lo_find, hp, htab, ghostAfterLookup,
        ghostGrant, if_true, htab]
      constructor
      · intro h r hr
        dsimp only at hr ⊢
        by_cases hk : h = parent
        · subst hk
          rw [upd_same] at hr
          injection hr with hr
          subst hr
          refine ⟨rfl, hp, Nat.one_pos, hpath, hfd, ?_⟩
          rw [upd_same, upd_same]
        · rw [upd_other _ _ _ hk] at hr
          obtain ⟨a, b, c, d, e, f⟩ := h1 h r hr
          refine ⟨a, b, c, d, e, ?_⟩
          rw [upd_other _ _ _ hk, upd_other _ _ _ hk]
          exact f
      · intro h hf
        dsimp only at hf ⊢
        by_cases hk : h = parent
        · subst hk
          rw [upd_same] at hf
          exact absurd rfl hf
        · rw [upd_other _ _ _ hk] at hf ⊢
          exact h2 h hf

theorem ghostAfterLookup_alloc (st : St) (obj : Nat × Nat) (path : String)
    (g : Ghost) (r : LRes) :
    ghostAfterLookup (lookup_alloc_fd st obj path).2 g r = ghostAfterLookup st g r := by
  cases r <;> rfl

/-- One `lo_do_lookup` call (any outcome) preserves the invariant. -/
theorem inv_lookup {env : Env} {fs : Fs} {st : St} {g : Ghost} (parent : Nat)
    (name : String) (hinv : Inv env fs st g) :
    Inv env fs (lo_do_lookup env fs st parent name).2
      (ghostAfterLookup st g (lo_do_lookup env fs st parent name).1) := by
  cases hop : lookup_open fs st parent name with
  | error e =>
    simpa only [lo_do_lookup, hop, ghostAfterLookup] using hinv
  | ok v =>
    obtain ⟨obj, path, recovered⟩ := v
    obtain ⟨hres, -, -⟩ := lookup_open_ok hop
    cases hstat : fs.statOther obj with
    | error e =>
      simp only [lo_do_lookup, hop, hstat, ghostAfterLookup]
      exact @inv_alloc env fs st g obj path hinv
    | ok onat =>
      have hinv2 := @inv_alloc env fs st g obj path hinv
      have hpath2 : fs.resolve ((lookup_alloc_fd st obj path).2.fdPath
          (lookup_alloc_fd st obj path).1) = .ok (obj.1, obj.2) := by
        simp only [lookup_alloc_fd, upd_same]
        rw [Prod.mk.eta]
        exact hres
      have hfd2 : (lookup_alloc_fd st obj path).1 <
          (lookup_alloc_fd st obj path).2.nextFd := Nat.lt_succ_self _
      have hrec2 : recovered = true →
          hash_st_ino env (⟨obj.1, obj.2, onat⟩ : Stat).st_dev
            (⟨obj.1, obj.2, onat⟩ : Stat).st_ino = parent := by
        intro hr
        subst hr
        exact lookup_open_recovered_hash hinv hop
      have hm := @inv_materialize env fs (lookup_alloc_fd st obj path).2 g parent
        name (lookup_alloc_fd st obj path).1 ⟨obj.1, obj.2, onat⟩ recovered
        hinv2 hpath2 hfd2 hrec2
      rw [ghostAfterLookup_alloc] at hm
      simpa only [lo_do_lookup, hop, hstat] using hm

/-- One `lo_link` call (any outcome) preserves the invariant. -/
theorem inv_link {env : Env} {fs : Fs} {st : St} {g : Ghost} (fs2 : Fs)
    (ino parent : Nat) (name : String) (hinv : Inv env fs st g) :
    Inv env fs (lo_link env st (.ok fs2) ino parent name).2
      (ghostAfterLink st g (lo_link env st (.ok fs2) ino parent name).1) := by
  obtain ⟨h1, h2⟩ := hinv
  cases htab : lo_inode st ino with
  | none => simpa only [lo_link, htab, ghostAfterLink] using And.intro h1 h2
  | some inode =>
    have htab' : st.table ino = some inode := htab
    obtain ⟨hnid, hhash, hpos, hres, hfdlt, hbal⟩ := h1 _ inode htab'
    cases hstat : fs2.statOther (st.fdObj inode.fd) with
    | error e =>
      simpa only [lo_link, htab, hstat, ghostAfterLink] using And.intro h1 h2
    | ok onat =>
      simp only [lo_link, htab, hstat, ghostAfterLink, ghostGrant, hnid, htab']
      constructor
      · intro h r hr
        dsimp only at hr ⊢
        by_cases hk : h = ino
        · subst hk
          rw [upd_same] at hr
          injection hr with hr
          subst hr
          refine ⟨rfl, hhash, Nat.succ_pos _, hres, hfdlt, ?_⟩
          rw [upd_same]
          dsimp only
          omega
        · rw [upd_other _ _ _ hk] at hr
          obtain ⟨a, b, c, d, e, f⟩ := h1 h r hr
          refine ⟨a, b, c, d, e, ?_⟩
          rw [upd_other _ _ _ hk]
          exact f
      · exact h2

/-- One balanced forget preserves the invariant (with the delivered
count added to the ghost forget total). -/
theorem inv_forget {env : Env} {fs : Fs} {st : St} {g : Ghost} (h n : Nat)
    (hinv : Inv env fs st g) (hbal : g.F h + n ≤ g.G h) :
    Inv env fs (lo_forget_one st h n).2 ⟨g.G, upd g.F h (g.F h + n)⟩ := by
  obtain ⟨h1, h2⟩ := hinv
  cases htab : lo_inode st h with
  | none =>
    simp only [lo_forget_one, htab]
    constructor
    · intro h' r hr
      obtain ⟨a, b, c, d, e, f⟩ := h1 h' r hr
      refine ⟨a, b, c, d, e, ?_⟩
      dsimp only
      by_cases hk : h' = h
      · subst hk
        exact absurd hr (by rw [show st.table h' = lo_inode st h' from rfl, htab]; simp)
      · rw [upd_other _ _ _ hk]
        exact f
    · exact h2
  | some inode =>
    have htab' : st.table h = some inode := htab
    obtain ⟨hnid, hhash, hpos, hres, hfdlt, hbalr⟩ := h1 _ inode htab'
    have hn : n ≤ inode.refcount := by omega
    by_cases hz : inode.refcount - n = 0
    · simp only [lo_forget_one, htab, unref_inode, if_pos hn, if_pos hz, hnid]
      constructor
      · intro h' r hr
        dsimp only at hr ⊢
        by_cases hk : h' = h
        · subst hk
          rw [upd_same] at hr
          exact absurd hr (by simp)
        · rw [upd_other _ _ _ hk] at hr
          obtain ⟨a, b, c, d, e, f⟩ := h1 h' r hr
          refine ⟨a, b, c, d, e, ?_⟩
          rw [upd_other _ _ _ hk]
          exact f
      · intro h' hf
        dsimp only at hf ⊢
        by_cases hk : h' = h
        · subst hk
          rw [upd_same] at hf ⊢
          exact ⟨inode.dev, inode.ino, hres, hhash⟩
        · rw [upd_other _ _ _ hk] at hf ⊢
          exact h2 h' hf
    · simp only [lo_forget_one, htab, unref_inode, if_pos hn, if_neg hz, hnid]
      constructor
      · intro h' r hr
        dsimp only at hr ⊢
        by_cases hk : h' = h
        · subst hk
          rw [upd_same] at hr
          injection hr with hr
          subst hr
          refine ⟨rfl, hhash, Nat.pos_of_ne_zero hz, hres, hfdlt, ?_⟩
          rw [upd_same]
          dsimp only
          omega
        · rw [upd_other _ _ _ hk] at hr
          obtain ⟨a, b, c, d, e, f⟩ := h1 h' r hr
          refine ⟨a, b, c, d, e, ?_⟩
          rw [upd_other _ _ _ hk]
          exact f
      · exact h2

/-- Every reachable state satisfies the inode-table invariant. -/
theorem reach_inv {env : Env} {sourcePath : String} {fs : Fs} {st : St} {g : Ghost}
    (hr : Reach env sourcePath fs st g) : Inv env fs st g := by
  induction hr with
  | init fs hres => exact inv_init env sourcePath fs hres
  | lookup fs' parent name hr hle ih => exact inv_lookup parent name (inv_fsle ih hle)
  | link fs' ino parent name hr hle ih => exact inv_link fs' ino parent name (inv_fsle ih hle)
  | forget h n hr hroot hlive hbal ih => exact inv_forget h n ih hbal

/-! ## Concrete fixtures used by the witnesses -/

/-- A concrete environment: an arbitrary executable stand-in for the
abstracted hash, root key `(7, 7)`, and concrete entry sizes. -/
def envW : Env :=
  { wyhash16 := fun l => 100 + l.headD 0
    root_dev := 7
    root_ino := 7
    timeout := 1
    direntSize := fun n => 24 + n.length
    direntPlusSize := fun n => 48 + n.length }

/-- A concrete backing filesystem with root `/src` and one child. -/
def fsW : Fs :=
  { resolve := fun p =>
      if p = "/src" then .ok (7, 7)
      else if p = "/src/x" then .ok (3, 4)
      else .error ENOENT
    statOther := fun _ => .ok 0 }

/-! ## Claim theorems -/

/-- C1: in every state reachable by any sequence of lookup, create, link
and forget operations, each `(device, inode)` pair with at least one
live reference has exactly one `ObjectRecord` (two table entries with
the same identity pair coincide, handle and record alike) and exactly
one kernel-facing handle registered for it (the record's `nodeid` is the
one table key it sits under); this holds also for records created while
the parent handle had a pending `ForgottenEntry`, since `Reach` includes
every recovery lookup. -/
theorem uniqueness_invariant {env : Env} {sourcePath : String} {fs : Fs} {st : St}
    {g : Ghost} (hr : Reach env sourcePath fs st g) :
    (∀ h₁ h₂ r₁ r₂, st.table h₁ = some r₁ → st.table h₂ = some r₂ →
        r₁.dev = r₂.dev → r₁.ino = r₂.ino → h₁ = h₂ ∧ r₁ = r₂) ∧
    (∀ h r, st.table h = some r → 0 < r.refcount ∧ r.nodeid = h) := by
  have hinv := reach_inv hr
  refine ⟨fun h₁ h₂ r₁ r₂ ht₁ ht₂ hdev hino => ?_, fun h r ht => ?_⟩
  · obtain ⟨-, hh₁, -, -, -, -⟩ := hinv.1 h₁ r₁ ht₁
    obtain ⟨-, hh₂, -, -, -, -⟩ := hinv.1 h₂ r₂ ht₂
    have hkey : h₁ = h₂ := by rw [← hh₁, ← hh₂, hdev, hino]
    subst hkey
    rw [ht₁] at ht₂
    injection ht₂ with ht₂
    exact ⟨rfl, ht₂⟩
  · obtain ⟨hnid, -, hpos, -, -, -⟩ := hinv.1 h r ht
    exact ⟨hpos, hnid⟩

/-- Witness for C1 at the mount-time state. -/
theorem uniqueness_invariant_witness :
    (initialSt envW "/src").table FUSE_ROOT_ID = some (initRoot envW) ∧
    ((1 : Nat) = 1 ∧ initRoot envW = initRoot envW) := by
  refine ⟨rfl, ?_⟩
  exact (uniqueness_invariant
    (@Reach.init envW "/src" fsW (by simp [fsW, envW]))).1
    1 1 (initRoot envW) (initRoot envW) rfl rfl rfl rfl

/-- The acquire-or-register step cannot fire the `lo_find` assert when
every record under the probed key is live. -/
theorem lookup_materialize_ne_crash {env : Env} {st : St} {parent : Nat}
    {name : String} {newfd : Nat} {attr : Stat} {recovered : Bool}
    (hpos : ∀ r, st.table (hash_st_ino env attr.st_dev attr.st_ino) = some r →
      0 < r.refcount) :
    (lookup_materialize env st parent name newfd attr recovered).1 ≠ .crash := by
  unfold lookup_materialize lo_find
  cases htab : st.table (hash_st_ino env attr.st_dev attr.st_ino) with
  | none => simp [htab]
  | some ret => simp [htab, if_pos (hpos ret htab)]

/-- C9: refcount decrements never underflow silently.  Under the
precondition that the total forget count delivered for a handle never
exceeds the references granted for it (the ghost balance), in every
reachable state each delivered forget satisfies `n ≤ refcount`, so the
`assert(inode->refcount >= n)` branch of `unref_inode` is unreachable
(no crash) and the `Nat` subtraction is exact; and no lookup can fire
the `assert(ret->refcount > 0)` of `lo_find`. -/
theorem refcount_no_underflow {env : Env} {sourcePath : String} {fs : Fs} {st : St}
    {g : Ghost} (hr : Reach env sourcePath fs st g) :
    (∀ h n r, st.table h = some r → g.F h + n ≤ g.G h →
        n ≤ r.refcount ∧ (lo_forget_one st h n).1 ≠ .crash) ∧
    (∀ fs' parent name, FsLe fs fs' →
        (lo_do_lookup env fs' st parent name).1 ≠ .crash) := by
  have hinv := reach_inv hr
  constructor
  · intro h n r ht hbal
    obtain ⟨-, -, -, -, -, hcons⟩ := hinv.1 h r ht
    have hn : n ≤ r.refcount := by omega
    refine ⟨hn, ?_⟩
    have ht' : lo_inode st h = some r := ht
    by_cases hz : r.refcount - n = 0
    · simp [lo_forget_one, ht', unref_inode, if_pos hn, if_pos hz]
    · simp [lo_forget_one, ht', unref_inode, if_pos hn, if_neg hz]
  · intro fs' parent name hle
    have hinv' := inv_fsle hinv hle
    cases hop : lookup_open fs' st parent name with
    | error e => simp [lo_do_lookup, hop]
    | ok v =>
      obtain ⟨obj, path, recovered⟩ := v
      cases hstat : fs'.statOther obj with
      | error e => simp [lo_do_lookup, hop, hstat]
      | ok onat =>
        simp only [lo_do_lookup, hop, hstat]
        exact lookup_materialize_ne_crash
          (fun r hread => (hinv'.1 _ r hread).2.2.1)

/-- Witness for C9: a balanced forget of one reference on the root at
the mount-time state passes the assert. -/
theorem refcount_no_underflow_witness :
    (initialSt envW "/src").table FUSE_ROOT_ID = some (initRoot envW) ∧
    initGhost.F FUSE_ROOT_ID + 1 ≤ initGhost.G FUSE_ROOT_ID ∧
    (1 ≤ (initRoot envW).refcount ∧
      (lo_forget_one (initialSt envW "/src") FUSE_ROOT_ID 1).1 ≠ .crash) := by
  refine ⟨rfl, by decide, ?_⟩
  exact (refcount_no_underflow
    (@Reach.init envW "/src" fsW (by simp [fsW, envW]))).1
    FUSE_ROOT_ID 1 (initRoot envW) rfl (by decide)

/-- A state whose handle 30 has a pending forgotten path `/p`. -/
def stC2 : St :=
  { initialSt envW "/src" with forgotten := upd (fun _ => "") 30 "/p" }

/-- A backing filesystem for the forgotten path `/p` and its child
`/p/x`.  `hash_st_ino envW 2 3 = 102` and `hash_st_ino envW 5 6 = 105`,
both distinct from the stale handle 30. -/
def fsC2 : Fs :=
  { resolve := fun p =>
      if p = "/p/x" then .ok (2, 3)
      else if p = "/p" then .ok (5, 6)
      else .error ENOENT
    statOther := fun _ => .ok 0 }

/-- C2 counterexample: a lookup of the name `x` (not `.`) under parent
handle 30, which has the pending ForgottenEntry `/p`, reopens `/p/x`
successfully, stats it, finds `(2, 3)` not live — and yet the new record
is registered under `hash_st_ino(2, 3) = 102`, not under the parent's
handle 30, and the ForgottenEntry for 30 is retained, contradicting the
claim that every lookup under a forgotten parent is a recovery lookup
marked recovered. -/
theorem recovery_lookup_counterexample :
    stC2.forgotten 30 ≠ "" ∧
    (lo_do_lookup envW fsC2 stC2 30 "x").1 = .ok ⟨102, ⟨2, 3, 0⟩, 1, 1⟩ ∧
    (lo_do_lookup envW fsC2 stC2 30 "x").2.table 30 = none ∧
    (lo_do_lookup envW fsC2 stC2 30 "x").2.table 102 =
      some ⟨1, 3, 2, 1, 102⟩ ∧
    (lo_do_lookup envW fsC2 stC2 30 "x").2.forgotten 30 = "/p" :=
  ⟨by decide, rfl, rfl, rfl, rfl⟩

/-- C2 (amended): for a lookup whose parent handle has a pending
ForgottenEntry, only the name `.` is a recovery lookup marked recovered:
then, if the reopen of the forgotten path and the stat succeed and the
`(device, inode)` pair is not already live, the new record is registered
under the recovered parent's own handle and the consumed ForgottenEntry
is deleted.  For any other name the forgotten path serves only as the
base for reopening `forgotten_path/name`: the call is not marked
recovered, the new record is registered under `hash_st_ino(dev, ino)`,
and the ForgottenEntry is retained. -/
theorem recovery_lookup_behaviour {env : Env} {fs : Fs} {st : St} {parent : Nat}
    {name : String} (hforg : st.forgotten parent ≠ "") :
    (name = "." →
      ∀ obj onat, fs.resolve (st.forgotten parent) = .ok obj →
        fs.statOther obj = .ok onat →
        st.table (hash_st_ino env obj.1 obj.2) = none →
        (lo_do_lookup env fs st parent name).1 =
          .ok ⟨parent, ⟨obj.1, obj.2, onat⟩, env.timeout, env.timeout⟩ ∧
        (lo_do_lookup env fs st parent name).2.table parent =
          some ⟨st.nextFd, obj.2, obj.1, 1, parent⟩ ∧
        (lo_do_lookup env fs st parent name).2.forgotten parent = "") ∧
    (name ≠ "." →
      ∀ obj onat, fs.resolve (st.forgotten parent ++ "/" ++ name) = .ok obj →
        fs.statOther obj = .ok onat →
        st.table (hash_st_ino env obj.1 obj.2) = none →
        (lo_do_lookup env fs st parent name).1 =
          .ok ⟨hash_st_ino env obj.1 obj.2, ⟨obj.1, obj.2, onat⟩,
               env.timeout, env.timeout⟩ ∧
        (lo_do_lookup env fs st parent name).2.table
            (hash_st_ino env obj.1 obj.2) =
          some ⟨st.nextFd, obj.2, obj.1, 1, hash_st_ino env obj.1 obj.2⟩ ∧
        (lo_do_lookup env fs st parent name).2.forgotten parent =
          st.forgotten parent) := by
  constructor
  · intro hn obj onat hres hstat htab
    subst hn
    have hop : lookup_open fs st parent "." = .ok (obj, st.forgotten parent, true) := by
      unfold lookup_open
      rw [if_pos hforg, if_pos rfl, hres]
      rfl
    simp only [lo_do_lookup, hop, hstat, lookup_materialize, lo_find,
      lookup_alloc_fd, htab, if_true]
    exact ⟨trivial, upd_same _ _ _, upd_same _ _ _⟩
  · intro hn obj onat hres hstat htab
    have hop : lookup_open fs st parent name =
        .ok (obj, st.forgotten parent ++ "/" ++ name, false) := by
      unfold lookup_open
      rw [if_pos hforg, if_neg hn, hres]
      rfl
    simp only [lo_do_lookup, hop, hstat, lookup_materialize, lo_find,
      lookup_alloc_fd, htab, Bool.false_eq_true, if_false]
    exact ⟨trivial, upd_same _ _ _, trivial⟩

/-- Witness for the amended C2, on the recovery (`.`) branch. -/
theorem recovery_lookup_behaviour_witness :
    stC2.forgotten 30 ≠ "" ∧
    (lo_do_lookup envW fsC2 stC2 30 ".").1 = .ok ⟨30, ⟨5, 6, 0⟩, 1, 1⟩ ∧
    (lo_do_lookup envW fsC2 stC2 30 ".").2.table 30 = some ⟨1, 6, 5, 1, 30⟩ ∧
    (lo_do_lookup envW fsC2 stC2 30 ".").2.forgotten 30 = "" := by
  have h := (@recovery_lookup_behaviour envW fsC2 stC2 30 "."
    (by decide)).1 rfl (5, 6) 0 rfl rfl rfl
  exact ⟨by decide, h.1, h.2.1, h.2.2⟩

/-- C3: `release(Handle, n)` (`unref_inode`) on a live non-root record
with refcount `r ≥ n`: if `n < r` the record stays alive with refcount
`r − n` and nothing else changes (the full resulting state is the old
one with only that table entry replaced); if `n = r` the record is
evicted — its current absolute path, read back from its own descriptor,
is stored as the ForgottenEntry for its handle, any RootChildIndex
entries under its handle/recorded name are removed, the handle leaves
the inode table (the record is freed), and the descriptor is closed. -/
theorem release_semantics {st : St} {h n : Nat} {r : LoInode}
    (_ht : st.table h = some r) (hnid : r.nodeid = h)
    (_hroot : h ≠ FUSE_ROOT_ID) (hn : n ≤ r.refcount) :
    (n < r.refcount →
      (unref_inode st (some r) n).1 = .stillAlive ∧
      (unref_inode st (some r) n).2 =
        { st with table := upd st.table h (some { r with refcount := r.refcount - n }) }) ∧
    (n = r.refcount →
      (unref_inode st (some r) n).1 = .destroyed ∧
      (unref_inode st (some r) n).2 =
        { st with
          forgotten := upd st.forgotten h (st.fdPath r.fd),
          rootInodes :=
            if st.rootNames h ≠ "" then upd st.rootInodes (st.rootNames h) 0
            else st.rootInodes,
          rootNames :=
            if st.rootNames h ≠ "" then upd st.rootNames h "" else st.rootNames,
          table := upd st.table h none,
          openFds := st.openFds.erase r.fd }) := by
  constructor
  · intro hlt
    have hz : ¬(r.refcount - n = 0) := by omega
    simp only [unref_inode, if_pos hn, if_neg hz, hnid]
    exact ⟨trivial, trivial⟩
  · intro heq
    have hz : r.refcount - n = 0 := by omega
    simp only [unref_inode, if_pos hn, if_pos hz, hnid]
    exact ⟨trivial, trivial⟩

/-- A state with one live non-root record (handle 102, refcount 2, fd 1
at path `/src/x`) registered as a root child named `x`. -/
def stC3 : St :=
  { table := upd (fun _ => none) 102 (some ⟨1, 3, 2, 2, 102⟩)
    forgotten := fun _ => ""
    rootInodes := upd (fun _ => 0) "x" 102
    rootNames := upd (fun _ => "") 102 "x"
    nextFd := 2
    openFds := [1, 0]
    fdObj := fun fd => if fd = 1 then (2, 3) else (7, 7)
    fdPath := fun fd => if fd = 1 then "/src/x" else "/src" }

/-- Witness for C3 on the eviction branch (`n = refcount`). -/
theorem release_semantics_witness :
    stC3.table 102 = some ⟨1, 3, 2, 2, 102⟩ ∧
    ((unref_inode stC3 (some ⟨1, 3, 2, 2, 102⟩) 2).1 = .destroyed ∧
      (unref_inode stC3 (some ⟨1, 3, 2, 2, 102⟩) 2).2 =
        { stC3 with
          forgotten :=
            upd stC3.forgotten 102 (stC3.fdPath (⟨1, 3, 2, 2, 102⟩ : LoInode).fd),
          rootInodes :=
            if stC3.rootNames 102 ≠ "" then upd stC3.rootInodes (stC3.rootNames 102) 0
            else stC3.rootInodes,
          rootNames :=
            if stC3.rootNames 102 ≠ "" then upd stC3.rootNames 102 "" else stC3.rootNames,
          table := upd stC3.table 102 none,
          openFds := stC3.openFds.erase (⟨1, 3, 2, 2, 102⟩ : LoInode).fd }) := by
  refine ⟨rfl, ?_⟩
  exact (@release_semantics stC3 102 2 ⟨1, 3, 2, 2, 102⟩
    rfl rfl (by decide) (by decide)).2 rfl

/-- C7: a delete-notification side-channel request for a name not
registered in the RootChildIndex (the `phmap` default 0 read) writes
back the distinct negative code `-ECHILD` and issues no kernel-facing
delete invalidation; for a registered name the invalidation is invoked
with the handle currently mapped to the name (against the mount root),
and 0 is written back when it succeeds. -/
theorem rpc_delete_semantics {st : St} {notify : Nat → String → Int} {name : String} :
    (st.rootInodes name = 0 →
      serve_rpc_one st notify name = (-(ECHILD : Int), [])) ∧
    (st.rootInodes name ≠ 0 →
      (serve_rpc_one st notify name).2 = [(st.rootInodes name, name)] ∧
      (notify (st.rootInodes name) name = 0 →
        (serve_rpc_one st notify name).1 = 0)) := by
  constructor
  · intro h0
    simp [serve_rpc_one, rpc_handle_delete, h0]
  · intro hne
    constructor
    · simp only [serve_rpc_one, rpc_handle_delete, if_neg hne]
      split <;> rfl
    · intro hok
      simp [serve_rpc_one, rpc_handle_delete, if_neg hne, hok]

/-- Witness for C7: unregistered name `z` refused with `-ECHILD`;
registered name `x` invalidated with its current handle, writing back
0. -/
theorem rpc_delete_semantics_witness :
    stC3.rootInodes "z" = 0 ∧
    serve_rpc_one stC3 (fun _ _ => 0) "z" = (-(ECHILD : Int), []) ∧
    stC3.rootInodes "x" ≠ 0 ∧
    (serve_rpc_one stC3 (fun _ _ => 0) "x").2 = [(stC3.rootInodes "x", "x")] ∧
    (serve_rpc_one stC3 (fun _ _ => 0) "x").1 = 0 := by
  refine ⟨by decide, ?_, by decide, ?_, ?_⟩
  · exact (@rpc_delete_semantics stC3 (fun _ _ => 0) "z").1 (by decide)
  · exact ((@rpc_delete_semantics stC3 (fun _ _ => 0) "x").2 (by decide)).1
  · exact ((@rpc_delete_semantics stC3 (fun _ _ => 0) "x").2 (by decide)).2 rfl

/-- An environment whose (spec-modelled) hash takes the reserved root
handle value on every input: the unresolved hash-collision case. -/
def envC8 : Env := { envW with wyhash16 := fun _ => FUSE_ROOT_ID }

/-- C8 counterexample: when the 64-bit hash of a non-root pair collides
with the reserved root handle value, `hash_st_ino` returns the reserved
root handle although the pair is not the mount-time root key — the
claimed "if and only if" fails (collisions with the reserved handle are
not detected; the hash is spec-modelled since wyhash.h is a vendored
third-party header outside the repository sources). -/
theorem identity_hasher_counterexample :
    ¬((2 : Nat) = envC8.root_dev ∧ (3 : Nat) = envC8.root_ino) ∧
    hash_st_ino envC8 2 3 = FUSE_ROOT_ID := by decide

/-- C8 (amended): `hash_st_ino` is a total (no error conditions) pure
function of its arguments and the mount-time root key: it returns the
reserved root handle if the pair equals the root key, and otherwise
returns the 64-bit hash of the 16 raw bytes formed by concatenating
device and inode; the "returns the root handle iff the pair is the root
key" equivalence holds exactly when the hash does not take the reserved
value on the given non-root input. -/
theorem identity_hasher_spec (env : Env) (dev ino : Nat) :
    (dev = env.root_dev ∧ ino = env.root_ino →
        hash_st_ino env dev ino = FUSE_ROOT_ID) ∧
    (¬(dev = env.root_dev ∧ ino = env.root_ino) →
        hash_st_ino env dev ino = env.wyhash16 (le8 dev ++ le8 ino)) ∧
    (env.wyhash16 (le8 dev ++ le8 ino) ≠ FUSE_ROOT_ID →
        (hash_st_ino env dev ino = FUSE_ROOT_ID ↔
          dev = env.root_dev ∧ ino = env.root_ino)) := by
  refine ⟨fun h => by simp [hash_st_ino, h], fun h => by simp [hash_st_ino, h],
    fun hne => ⟨fun hh => ?_, fun h => by simp [hash_st_ino, h]⟩⟩
  by_contra hcon
  rw [hash_st_ino, if_neg hcon] at hh
  exact hne hh

/-- Witness for the amended C8 at a non-root pair whose hash avoids the
reserved value. -/
theorem identity_hasher_spec_witness :
    envW.wyhash16 (le8 2 ++ le8 3) ≠ FUSE_ROOT_ID ∧
    (hash_st_ino envW 2 3 = FUSE_ROOT_ID ↔
      (2 : Nat) = envW.root_dev ∧ (3 : Nat) = envW.root_ino) := by
  refine ⟨by decide, ?_⟩
  exact (identity_hasher_spec envW 2 3).2.2 (by decide)

/-- C10: every handler that dereferences an object handle that is
neither the reserved root handle (for which the source short-circuits to
the root singleton) nor currently registered in the inode table replies
`EBADF`, performs no underlying filesystem syscall (the result is
independent of every syscall-outcome argument), and leaves the state —
inode table, ForgottenEntry map and RootChildIndex included —
unchanged. -/
theorem unknown_handle_ebadf {env : Env} {st : St} {ino : Nat}
    (_hroot : ino ≠ FUSE_ROOT_ID) (habs : st.table ino = none) :
    (∀ sys valid, lo_setattr env st sys ino valid = (.err EBADF, st)) ∧
    (∀ linkRes parent name, lo_link env st linkRes ino parent name = (.err EBADF, st)) ∧
    (∀ createRes name, lo_mknod_symlink env st createRes ino name = (.err EBADF, st)) ∧
    (∀ n, lo_forget_one st ino n = (.badf, st)) ∧
    (∀ x sysRes name size, lo_getxattr st x sysRes ino name size = (.err EBADF, st)) ∧
    (∀ x sysRes name value, lo_setxattr st x sysRes ino name value = (.err EBADF, st)) ∧
    (∀ x sysRes size, lo_listxattr st x sysRes ino size = (.err EBADF, st)) ∧
    (∀ x sysRes name, lo_removexattr st x sysRes ino name = (.err EBADF, st)) := by
  have habs' : lo_inode st ino = none := habs
  refine ⟨fun sys valid => ?_, fun linkRes parent name => ?_,
    fun createRes name => ?_, fun n => ?_, fun x sysRes name size => ?_,
    fun x sysRes name value => ?_, fun x sysRes size => ?_, fun x sysRes name => ?_⟩
  · simp [lo_setattr, habs']
  · simp [lo_link, habs']
  · simp [lo_mknod_symlink, habs']
  · simp [lo_forget_one, habs']
  · simp [lo_getxattr, habs']
  · simp [lo_setxattr, habs']
  · simp [lo_listxattr, habs']
  · simp [lo_removexattr, habs']

/-- Concrete syscall outcomes for the C10 witness. -/
def sysW : SetattrSys := ⟨.ok (), .ok (), .ok (), .ok (), .ok ⟨0, 0, 0⟩⟩

/-- Witness for C10 at the unknown handle 55 in the mount-time state. -/
theorem unknown_handle_ebadf_witness :
    (55 : Nat) ≠ FUSE_ROOT_ID ∧
    (initialSt envW "/src").table 55 = none ∧
    lo_setattr envW (initialSt envW "/src") sysW 55 3 =
      (.err EBADF, initialSt envW "/src") ∧
    lo_forget_one (initialSt envW "/src") 55 1 = (.badf, initialSt envW "/src") ∧
    lo_getxattr (initialSt envW "/src") true (.ok 4) 55 "n" 8 =
      (.err EBADF, initialSt envW "/src") := by
  have h := @unknown_handle_ebadf envW (initialSt envW "/src") 55
    (by decide) rfl
  exact ⟨by decide, rfl, h.1 sysW 3, h.2.2.2.1 1, h.2.2.2.2.1 true (.ok 4) "n" 8⟩

/-- C4: every creation variant performs the underlying creation syscall
first and then registers the created object through exactly the shared
lookup allocation path.  Make-node, make-directory and symlink
(`lo_mknod_symlink`) reply verbatim with `lo_do_lookup (parent, name)`
run on the post-creation filesystem.  Hard-link (`lo_link`), whose body
bumps the held record in place instead, is observationally equal to
running the shared path on `(parent, name)` after the `linkat`: the same
reply entry (handle, attributes, timeouts) and the same inode table,
ForgottenEntry map, RootChildIndex and set of open descriptors (the
hypotheses are the reachable-state invariants of the target record and
the fact that the freshly linked name resolves to it). -/
theorem creation_shares_lookup_path {env : Env} {st : St} :
    (∀ (fs2 : Fs) (parent : Nat) (name : String) (dir : LoInode),
      lo_inode st parent = some dir →
      lo_mknod_symlink env st (.ok fs2) parent name =
        match lo_do_lookup env fs2 st parent name with
        | (.ok e, st') => (.entry e, st')
        | (.err e, st') => (.err e, st')
        | (.crash, st') => (.crash, st')) ∧
    (∀ (fs2 : Fs) (ino parent : Nat) (name : String) (inode pnode : LoInode)
        (onat : Nat),
      st.table ino = some inode → inode.nodeid = ino →
      st.table parent = some pnode → st.forgotten parent = "" →
      st.fdObj inode.fd = (inode.dev, inode.ino) →
      fs2.resolve (st.fdPath pnode.fd ++ "/" ++ name) = .ok (inode.dev, inode.ino) →
      fs2.statOther (inode.dev, inode.ino) = .ok onat →
      hash_st_ino env inode.dev inode.ino = ino →
      0 < inode.refcount →
      ∃ e st₁ st₂,
        lo_link env st (.ok fs2) ino parent name = (.entry e, st₁) ∧
        lo_do_lookup env fs2 st parent name = (.ok e, st₂) ∧
        st₁.table = st₂.table ∧ st₁.forgotten = st₂.forgotten ∧
        st₁.rootInodes = st₂.rootInodes ∧ st₁.rootNames = st₂.rootNames ∧
        st₁.openFds = st₂.openFds) := by
  constructor
  · intro fs2 parent name dir hp
    simp only [lo_mknod_symlink, hp]
  · intro fs2 ino parent name inode pnode onat
      htab hnid hpar hforg hobj hres hstat hkey hpos
    have htab' : lo_inode st ino = some inode := htab
    have hpar' : lo_inode st parent = some pnode := hpar
    have hop : lookup_open fs2 st parent name =
        .ok ((inode.dev, inode.ino), st.fdPath pnode.fd ++ "/" ++ name, false) := by
      unfold lookup_open
      rw [if_neg (by simpa using hforg), hpar']
      dsimp only
      rw [hres]
      rfl
    refine ⟨⟨inode.nodeid, ⟨inode.dev, inode.ino, onat⟩, env.timeout, env.timeout⟩,
      { st with
          table := upd st.table ino (some { inode with refcount := inode.refcount + 1 }) },
      { st with
          table := upd st.table ino (some { inode with refcount := inode.refcount + 1 }),
          nextFd := st.nextFd + 1,
          openFds := (st.nextFd :: st.openFds).erase st.nextFd,
          fdObj := upd st.fdObj st.nextFd (inode.dev, inode.ino),
          fdPath := upd st.fdPath st.nextFd (st.fdPath pnode.fd ++ "/" ++ name) },
      ?_, ?_, rfl, rfl, rfl, rfl, ?_⟩
    · simp only [lo_link, htab', hobj, hstat]
    · simp only [lo_do_lookup, hop, hstat, lookup_materialize, lo_find,
        lookup_alloc_fd, hkey, htab, if_pos hpos, hnid]
    · exact (List.erase_cons_head _ _).symm

/-- A state with the root and one live record — handle 102 (the hash of
`(2, 3)`), fd 1, current path `/src/y` — for the C4 witness. -/
def stC4 : St :=
  { initialSt envW "/src" with
      table := upd (initialSt envW "/src").table 102 (some ⟨1, 3, 2, 1, 102⟩),
      nextFd := 2,
      openFds := [1, 0],
      fdObj := fun fd => if fd = 1 then (2, 3) else (7, 7),
      fdPath := fun fd => if fd = 1 then "/src/y" else "/src" }

/-- The backing filesystem after the `linkat` created `/src/y` as a hard
link to the object `(2, 3)`. -/
def fsC4 : Fs :=
  { resolve := fun p =>
      if p = "/src" then .ok (7, 7)
      else if p = "/src/y" then .ok (2, 3)
      else .error ENOENT
    statOther := fun _ => .ok 0 }

/-- Witness for C4: hard-linking the live record 102 in as the root
child `y` behaves as the shared lookup path on `(root, "y")`. -/
theorem creation_shares_lookup_path_witness :
    stC4.table 102 = some ⟨1, 3, 2, 1, 102⟩ ∧
    hash_st_ino envW 2 3 = 102 ∧
    (∃ e st₁ st₂,
      lo_link envW stC4 (.ok fsC4) 102 FUSE_ROOT_ID "y" = (.entry e, st₁) ∧
      lo_do_lookup envW fsC4 stC4 FUSE_ROOT_ID "y" = (.ok e, st₂) ∧
      st₁.table = st₂.table ∧ st₁.forgotten = st₂.forgotten ∧
      st₁.rootInodes = st₂.rootInodes ∧ st₁.rootNames = st₂.rootNames ∧
      st₁.openFds = st₂.openFds) := by
  refine ⟨rfl, by decide, ?_⟩
  exact (@creation_shares_lookup_path envW stC4).2 fsC4 102
    FUSE_ROOT_ID "y" ⟨1, 3, 2, 1, 102⟩ (initRoot envW) 0
    rfl rfl rfl rfl rfl rfl rfl (by decide) (by decide)

/-! ## Per-call refcount accounting for directory streaming -/

/-- The part of `Inv` that per-call refcount accounting needs: records
sit under their `nodeid`, which is the identity hash, and are live. -/
def TblInv (env : Env) (st : St) : Prop :=
  ∀ h r, st.table h = some r →
    r.nodeid = h ∧ hash_st_ino env r.dev r.ino = h ∧ 0 < r.refcount

theorem tblInv_of_inv {env : Env} {fs : Fs} {st : St} {g : Ghost}
    (hinv : Inv env fs st g) : TblInv env st :=
  fun h r hr => ⟨(hinv.1 h r hr).1, (hinv.1 h r hr).2.1, (hinv.1 h r hr).2.2.1⟩

/-- The reply discipline the source's tail enforces: an encountered
error is replied as an error only when nothing has been serialized;
otherwise the collected page is returned; without an error the page is
returned (or the process aborted by a nested assert). -/
def RdReplyOk (out : RdOut) : Prop :=
  (∀ e, out.errG = some e →
    out.reply = if out.used = 0 then Reply.err e else Reply.buf out.used) ∧
  (out.errG = none → out.reply = .buf out.used ∨ out.reply = .crash)

theorem rdReplyOk_finish {size rem : Nat} {st : St} {d : LoDirp} {grants : List Nat}
    {forgets : List (Nat × Nat)} {errG : Option Nat} {tg : Option Nat}
    (hrem : rem ≤ size) :
    RdReplyOk (rd_finish size rem st d grants forgets errG tg) := by
  constructor
  · intro e he
    simp only [rd_finish] at he ⊢
    subst he
    by_cases hz : rem = size
    · simp [hz]
    · have hne : ¬(size - rem = 0) := by omega
      simp [hz, hne]
  · intro he
    simp only [rd_finish] at he ⊢
    rw [he]
    left
    rfl

theorem rdReplyOk_crash {size rem : Nat} {st : St} {d : LoDirp} {grants : List Nat}
    {forgets : List (Nat × Nat)} :
    RdReplyOk (rd_crash size rem st d grants forgets) := by
  constructor
  · intro e he
    simp [rd_crash] at he
  · intro _
    right
    rfl

/-- Every run of the readdir loop obeys the reply discipline. -/
theorem rd_loop_reply (env : Env) (fs : Fs) (tailErr : Option Nat) (ino : Nat)
    (plus : Bool) (size : Nat) :
    ∀ cached pending pos dOffset rem st grants forgets, rem ≤ size →
      RdReplyOk
        (rd_loop env fs tailErr ino plus size cached pending pos dOffset rem st
          grants forgets) := by
  intro cached pending pos dOffset rem st grants forgets
  induction cached, pending, pos, dOffset, rem, st, grants, forgets
    using rd_loop.induct env fs tailErr ino plus size
  all_goals intro hrem
  all_goals simp only [rd_loop, *, if_true, if_false] at *
  all_goals
    first
      | exact rdReplyOk_crash
      | exact rdReplyOk_finish hrem
      | (apply_assumption; first | omega | trivial)
      | ((repeat' split) <;>
          first
            | exact rdReplyOk_crash
            | exact rdReplyOk_finish hrem
            | simp_all)

/-! ## Deferred-error position of the readdir loop -/

/-- A run that records an error while leaving no cached entry can only
have hit the stream's tail error, with the stream exhausted: the next
call from the returned cursor re-encounters exactly that error. -/
def RdTailErr (tailErr : Option Nat) (all : List Dirent) (out : RdOut) : Prop :=
  ∀ e, out.errG = some e → out.d.entry = none →
    tailErr = some e ∧ all.drop out.d.pos = []

theorem rdTailErr_finish_cached {tailErr : Option Nat} {all : List Dirent}
    {size rem : Nat} {st : St} {pos dOffset : Nat} {ent : Dirent}
    {grants : List Nat} {forgets : List (Nat × Nat)} {errG tg : Option Nat} :
    RdTailErr tailErr all
      (rd_finish size rem st ⟨pos, some ent, dOffset⟩ grants forgets errG tg) := by
  intro e _ hent
  simp [rd_finish] at hent

theorem rdTailErr_finish_no_err {tailErr : Option Nat} {all : List Dirent}
    {size rem : Nat} {st : St} {d : LoDirp}
    {grants : List Nat} {forgets : List (Nat × Nat)} {tg : Option Nat} :
    RdTailErr tailErr all (rd_finish size rem st d grants forgets none tg) := by
  intro e herr
  simp [rd_finish] at herr

theorem rdTailErr_crash {tailErr : Option Nat} {all : List Dirent}
    {size rem : Nat} {st : St} {d : LoDirp}
    {grants : List Nat} {forgets : List (Nat × Nat)} :
    RdTailErr tailErr all (rd_crash size rem st d grants forgets) := by
  intro e herr
  simp [rd_crash] at herr

theorem rdTailErr_finish_tail {all : List Dirent} {size rem : Nat} {st : St}
    {pos dOffset : Nat} {grants : List Nat} {forgets : List (Nat × Nat)}
    {e' : Nat} {tg : Option Nat} (hdrop : all.drop pos = []) :
    RdTailErr (some e') all
      (rd_finish size rem st ⟨pos, none, dOffset⟩ grants forgets (some e') tg) := by
  intro e herr _
  simp only [rd_finish] at herr ⊢
  cases herr
  exact ⟨rfl, hdrop⟩

theorem drop_succ_of_drop_cons {α : Type} {l : List α} {n : Nat} {a : α}
    {t : List α} (h : l.drop n = a :: t) : l.drop (n + 1) = t := by
  rw [← List.tail_drop, h]
  rfl

/-- Every run of the readdir loop, started with the pending suffix of
the stream, satisfies the deferred-error discipline. -/
theorem rd_loop_tail_error (env : Env) (fs : Fs) (tailErr : Option Nat)
    (ino : Nat) (plus : Bool) (size : Nat) (all : List Dirent) :
    ∀ cached pending pos dOffset rem st grants forgets,
      all.drop pos = pending →
      RdTailErr tailErr all
        (rd_loop env fs tailErr ino plus size cached pending pos dOffset rem st
          grants forgets) := by
  intro cached pending pos dOffset rem st grants forgets
  induction cached, pending, pos, dOffset, rem, st, grants, forgets
    using rd_loop.induct env fs tailErr ino plus size
  all_goals intro hpend
  all_goals simp only [rd_loop, *, if_true, if_false] at *
  all_goals
    first
      | exact rdTailErr_crash
      | exact rdTailErr_finish_cached
      | exact rdTailErr_finish_no_err
      | exact rdTailErr_finish_tail hpend
      | (apply_assumption;
          first
            | exact hpend
            | exact drop_succ_of_drop_cons hpend
            | trivial)
      | ((repeat' split) <;>
          first
            | exact rdTailErr_crash
            | exact rdTailErr_finish_cached
            | exact rdTailErr_finish_no_err
            | simp_all)

/-! ## Grant/forget accounting of the plus-mode readdir loop -/

/-- A call whose cursor carries no cached entry and points past the end
of the stream replies the stream's tail error, whatever the state. -/
theorem rd_next_call_err {env : Env} {fs : Fs} {stream : DirStream} {st2 : St}
    {dd : LoDirp} {ino size : Nat} {plus : Bool} {e : Nat}
    (hTe : stream.tailErr = some e) (hent : dd.entry = none)
    (hDr : stream.entries.drop dd.pos = []) :
    (lo_do_readdir env fs stream st2 dd ino size dd.offset plus).reply =
      .err e := by
  simp [lo_do_readdir, hent, hDr, hTe, rd_loop, rd_finish]

/-- **C6**: A `lo_do_readdir` call that starts at the exhausted stream
with no pending tail error replies success with an empty page; whenever
a call records an error, it is replied as an error only when nothing
has been serialized into this call's buffer, and otherwise the page
collected so far is replied; and an error recorded with no entry left
cached is the stream's tail error with the stream exhausted, so the
next call from the returned cursor — whatever the inode-table state by
then — replies exactly that error. -/
theorem readdir_error_deferral (env : Env) (fs : Fs) (stream : DirStream)
    (st : St) (d : LoDirp) (ino size offset : Nat) (plus : Bool) :
    (stream.tailErr = none → offset = d.offset → d.entry = none →
      stream.entries.drop d.pos = [] →
      (lo_do_readdir env fs stream st d ino size offset plus).reply = .buf 0) ∧
    (∀ e,
      (lo_do_readdir env fs stream st d ino size offset plus).errG = some e →
      (lo_do_readdir env fs stream st d ino size offset plus).reply =
        if (lo_do_readdir env fs stream st d ino size offset plus).used = 0
        then Reply.err e
        else Reply.buf
          (lo_do_readdir env fs stream st d ino size offset plus).used) ∧
    (∀ e,
      (lo_do_readdir env fs stream st d ino size offset plus).errG = some e →
      (lo_do_readdir env fs stream st d ino size offset plus).d.entry = none →
      ∀ st2,
        (lo_do_readdir env fs stream st2
          (lo_do_readdir env fs stream st d ino size offset plus).d ino size
          (lo_do_readdir env fs stream st d ino size offset plus).d.offset
          plus).reply = .err e) := by
  refine ⟨?_, ?_, ?_⟩
  · intro hte hoff hent hdrop
    simp [lo_do_readdir, hoff, hent, hdrop, hte, rd_loop, rd_finish]
  · simp only [lo_do_readdir]
    exact (rd_loop_reply env fs stream.tailErr ino plus size
      (if offset ≠ d.offset then (⟨offset, none, offset⟩ : LoDirp) else d).entry
      (stream.entries.drop
        (if offset ≠ d.offset then (⟨offset, none, offset⟩ : LoDirp) else d).pos)
      (if offset ≠ d.offset then (⟨offset, none, offset⟩ : LoDirp) else d).pos
      (if offset ≠ d.offset then (⟨offset, none, offset⟩ : LoDirp) else d).offset
      size st [] [] (le_refl size)).1
  · simp only [lo_do_readdir]
    generalize (if offset ≠ d.offset then (⟨offset, none, offset⟩ : LoDirp) else d) = D
    intro e he hent st2
    obtain ⟨hTe, hDr⟩ := rd_loop_tail_error env fs stream.tailErr ino plus size
      stream.entries D.entry (stream.entries.drop D.pos) D.pos D.offset size st
      [] [] rfl e he hent
    exact rd_next_call_err hTe hent hDr

theorem readdir_error_deferral_witness :
    (lo_do_readdir envW fsW ⟨[], some 5⟩ (initialSt envW "/src")
      ⟨0, none, 0⟩ 1 16 0 true).errG = some 5 ∧
    (lo_do_readdir envW fsW ⟨[], some 5⟩ (initialSt envW "/src")
      ⟨0, none, 0⟩ 1 16 0 true).reply = .err 5 ∧
    (lo_do_readdir envW fsW ⟨[], some 5⟩ stC3
      (lo_do_readdir envW fsW ⟨[], some 5⟩ (initialSt envW "/src")
        ⟨0, none, 0⟩ 1 16 0 true).d 1 16
      (lo_do_readdir envW fsW ⟨[], some 5⟩ (initialSt envW "/src")
        ⟨0, none, 0⟩ 1 16 0 true).d.offset true).reply = .err 5 := by
  have h := readdir_error_deferral envW fsW ⟨[], some 5⟩ (initialSt envW "/src")
    ⟨0, none, 0⟩ 1 16 0 true
  have hErr : (lo_do_readdir envW fsW ⟨[], some 5⟩ (initialSt envW "/src")
      ⟨0, none, 0⟩ 1 16 0 true).errG = some 5 := by
    simp [lo_do_readdir, rd_loop, rd_finish]
  have hEnt : (lo_do_readdir envW fsW ⟨[], some 5⟩ (initialSt envW "/src")
      ⟨0, none, 0⟩ 1 16 0 true).d.entry = none := by
    simp [lo_do_readdir, rd_loop, rd_finish]
  have hUsed : (lo_do_readdir envW fsW ⟨[], some 5⟩ (initialSt envW "/src")
      ⟨0, none, 0⟩ 1 16 0 true).used = 0 := by
    simp [lo_do_readdir, rd_loop, rd_finish]
  refine ⟨hErr, ?_, h.2.2 5 hErr hEnt stC3⟩
  rw [h.2.1 5 hErr, hUsed]
  simp

end Fpll
